import Mathlib

/-!
Shallow embedding of the assist-craft-qna server core: the canonical
knowledge store (`qaService`), the vector sync engine (`syncVector`,
`syncVectorWithRetry`, `removeVector`, `deleteAll`), the rerank fallback
chain (`rerankService.rerank`) and the search route assembly.

SQLite rows become a `List QAPair`; SQL statements become list operations.
External providers (Pinecone embedding / vector index / rerank API) are
modelled as explicit outcome parameters (oracles), since their internals
are out of scope.  JavaScript numbers are modelled as `ℚ` (the code only
passes scores around and compares them; no float rounding is relevant),
with a separate `JNum` type where the code explicitly tests
`Number.isFinite`.  JS `Map` construction from an entry list (later
entries overwrite earlier ones) is modelled by `jsMapGet`.
-/

namespace AssistQna

/-- One row of the `qa_pairs` SQLite table (`qaService.ts`, interface `QAPair`). -/
structure QAPair where
  id : String
  question : String
  answer : String
  language : String
  pinecone_id : Option String
  embedding_status : String
  created_at : String
  updated_at : String
  deriving Repr, DecidableEq

/-- `SELECT * FROM qa_pairs WHERE id = ?` (first row). -/
def getById (tbl : List QAPair) (id : String) : Option QAPair :=
  tbl.find? (fun r => r.id = id)

/-- Kernel-computable model of string trimming (drop leading and trailing
whitespace), standing for JS `.trim()` / SQLite `TRIM`. -/
def jsTrim (s : String) : String :=
  ⟨(((s.data.dropWhile Char.isWhitespace).reverse).dropWhile
      Char.isWhitespace).reverse⟩

/-- ASCII lowercasing, standing for SQLite `LOWER` (which, like
`Char.toLower`, only folds ASCII letters). -/
def asciiLower (s : String) : String :=
  ⟨s.data.map Char.toLower⟩

/-- The comparison key of `selectByQuestionStmt`: `TRIM(LOWER(question))`. -/
def sqlNormQuestion (s : String) : String :=
  jsTrim (asciiLower s)

/-- `SELECT * FROM qa_pairs WHERE TRIM(LOWER(question)) = TRIM(LOWER(?)) LIMIT 1`. -/
def getByQuestion (tbl : List QAPair) (q : String) : Option QAPair :=
  tbl.find? (fun r => sqlNormQuestion r.question = sqlNormQuestion q)

/-- The `UPDATE qa_pairs SET question = ?, answer = ?, language = ?,
updated_at = ?, embedding_status = 'pending' WHERE id = ?` statement used by
`qaService.create` (replace branch) and `qaService.update`. -/
def updateRow (tbl : List QAPair) (id question answer language now : String) :
    List QAPair :=
  tbl.map fun r =>
    if r.id = id then
      { r with question := question, answer := answer, language := language,
               updated_at := now, embedding_status := "pending" }
    else r

/-- Input of `qaService.create` (`language` optional, defaulting to `"ru"`). -/
structure CreateInput where
  question : String
  answer : String
  language : Option String
  deriving Repr, DecidableEq

/-- Result of `qaService.create` together with the table it leaves behind.
`record` is `Option` because the code reads it back with `getById` (the TS
code asserts non-null with `!`). -/
structure CreateOut where
  table : List QAPair
  record : Option QAPair
  replaced : Bool
  deriving Repr, DecidableEq

/-- `qaService.create`: trim question/answer, default language `"ru"`,
look up an existing row by case-insensitive trimmed question; if found,
update it in place (status reset to `pending`) and report `replaced = true`;
otherwise insert a fresh row (id `freshId`, modelling `randomUUID()`) with
status `pending` and report `replaced = false`. -/
def create (tbl : List QAPair) (freshId now : String) (input : CreateInput) :
    CreateOut :=
  let question := (jsTrim input.question)
  let answer := (jsTrim input.answer)
  let language := input.language.getD "ru"
  match getByQuestion tbl question with
  | some existing =>
      let tbl' := updateRow tbl existing.id question answer language now
      { table := tbl', record := getById tbl' existing.id, replaced := true }
  | none =>
      let row : QAPair :=
        { id := freshId, question := question, answer := answer,
          language := language, pinecone_id := none,
          embedding_status := "pending", created_at := now, updated_at := now }
      let tbl' := tbl ++ [row]
      { table := tbl', record := getById tbl' freshId, replaced := false }

/-- `qaService.findByIds`: `SELECT * FROM qa_pairs WHERE id IN (...)`
(empty input short-circuits to an empty list). -/
def findByIds (tbl : List QAPair) (ids : List String) : List QAPair :=
  if ids = [] then [] else tbl.filter (fun r => r.id ∈ ids)

/-! ## Sync engine (`qaService.syncVector` and friends) -/

/-- The relevant slice of `lib/env.ts`: Pinecone configuration flags and
model names.  `getIndex() == null` inside `pineconeService` is folded into
`pineconeConfigured` (the client exists exactly when configured). -/
structure Env where
  pineconeConfigured : Bool
  PINECONE_EMBED_MODEL : Option String
  PINECONE_EMBED_INPUT_TYPE : Option String
  PINECONE_RERANK_MODEL : Option String
  PINECONE_RERANK_FALLBACK_MODEL : Option String
  PINECONE_INDEX : Option String
  deriving Repr, DecidableEq

/-- `embeddingService.isConfigured()`:
`env.pineconeConfigured && Boolean(env.PINECONE_EMBED_MODEL)`. -/
def embeddingConfigured (env : Env) : Bool :=
  env.pineconeConfigured && !(env.PINECONE_EMBED_MODEL.getD "" = "")

/-- Result shape of `embeddingService.embed` (vector plus model name;
`dimension` is just `embedding.length`). -/
structure EmbedResult where
  embedding : List ℚ
  model : String
  deriving Repr, DecidableEq

/-- `fakeEmbedding` from `embeddingService`: a 1536-slot zero vector whose
first `min (bytes.length) 1536` entries are the UTF-8 bytes of the text
scaled by `1/255`. -/
def fakeEmbedding (text : String) : List ℚ :=
  let bytes := text.toUTF8.toList.take 1536
  (bytes.map fun b => (b.toNat : ℚ) / 255) ++ List.replicate (1536 - bytes.length) 0

/-- The request `embeddingService.embed` sends when configured: the
Pinecone inference call with `inputType: env.PINECONE_EMBED_INPUT_TYPE ??
"passage"` (`"passage"` is Pinecone's name for the document intent, as
opposed to `"query"`). -/
structure EmbedRequest where
  text : String
  inputType : String
  deriving Repr, DecidableEq

/-- `embeddingService.embed`: the local pseudo-embedding fallback when not
configured, otherwise the provider outcome (success or thrown error),
modelled as an oracle. -/
def embed (env : Env) (providerOutcome : Except String EmbedResult)
    (text : String) : Except String EmbedResult :=
  if embeddingConfigured env = false then
    Except.ok { embedding := fakeEmbedding text, model := "local-fake" }
  else providerOutcome

/-- Metadata snapshot stored next to a vector (`{question, answer, language}`). -/
structure VectorMeta where
  question : String
  answer : String
  language : String
  deriving Repr, DecidableEq

/-- One `(id, vector, metadata)` triple in a Pinecone namespace. -/
structure VectorEntry where
  id : String
  values : List ℚ
  metadata : Option VectorMeta
  ns : String
  deriving Repr, DecidableEq

/-- Upsert semantics of the vector index: replace any entry with the same
id in the same namespace, else append. -/
def upsertEntry (idx : List VectorEntry) (e : VectorEntry) : List VectorEntry :=
  (idx.filter fun o => !(o.id = e.id && o.ns = e.ns)) ++ [e]

/-- `pineconeService.upsertVector`: a silent no-op when Pinecone is not
configured; otherwise the provider either applies the upsert or throws
(oracle `outcome`). -/
def upsertVector (cfg : Bool) (outcome : Except String Unit)
    (idx : List VectorEntry) (e : VectorEntry) :
    Except String (List VectorEntry) :=
  if cfg = false then Except.ok idx
  else
    match outcome with
    | Except.ok _ => Except.ok (upsertEntry idx e)
    | Except.error m => Except.error m

/-- `UPDATE qa_pairs SET embedding_status = ? WHERE id = ?` (skipped branch:
`updated_at` untouched). -/
def setStatus (tbl : List QAPair) (id status : String) : List QAPair :=
  tbl.map fun r => if r.id = id then { r with embedding_status := status } else r

/-- `UPDATE qa_pairs SET embedding_status = 'failed', updated_at = ?
WHERE id = ?`. -/
def setFailed (tbl : List QAPair) (id now : String) : List QAPair :=
  tbl.map fun r =>
    if r.id = id then { r with embedding_status := "failed", updated_at := now }
    else r

/-- `UPDATE qa_pairs SET pinecone_id = ?, embedding_status = 'ready',
updated_at = ? WHERE id = ?`. -/
def setSynced (tbl : List QAPair) (id pid now : String) : List QAPair :=
  tbl.map fun r =>
    if r.id = id then
      { r with pinecone_id := some pid, embedding_status := "ready",
               updated_at := now }
    else r

/-- Combined mutable state the sync engine acts on: the SQLite table and
the vector index contents. -/
structure SyncState where
  table : List QAPair
  index : List VectorEntry
  deriving Repr, DecidableEq

/-- The embedding text built by `syncVector`: `question + blank line + answer`. -/
def syncText (qa : QAPair) : String :=
  qa.question ++ "\n\n" ++ qa.answer

/-- The embed request issued by the sync path for a record (the code calls
`embeddingService.embed(text)` with the default input type). -/
def syncEmbedRequest (env : Env) (qa : QAPair) : EmbedRequest :=
  { text := syncText qa, inputType := env.PINECONE_EMBED_INPUT_TYPE.getD "passage" }

/-- `qaService.syncVector` (the spec's `syncOne`): embed the text; empty
vector ⇒ status `skipped`, return without error; otherwise upsert
`(id, vector, {question, answer, language})` into namespace `"qa"`; on
success status `ready` and `pinecone_id = id`; any thrown error ⇒ status
`failed` and the error is rethrown (returned as `some e`). -/
def syncVector (env : Env) (embedOutcome : Except String EmbedResult)
    (upsertOutcome : Except String Unit) (now : String) (qa : QAPair)
    (st : SyncState) : SyncState × Option String :=
  match embed env embedOutcome (syncText qa) with
  | Except.error e => ({ st with table := setFailed st.table qa.id now }, some e)
  | Except.ok res =>
      if res.embedding = [] then
        ({ st with table := setStatus st.table qa.id "skipped" }, none)
      else
        match upsertVector env.pineconeConfigured upsertOutcome st.index
            { id := qa.id, values := res.embedding,
              metadata := some { question := qa.question, answer := qa.answer,
                                 language := qa.language },
              ns := "qa" } with
        | Except.error e =>
            ({ st with table := setFailed st.table qa.id now }, some e)
        | Except.ok idx =>
            ({ table := setSynced st.table qa.id qa.id now, index := idx }, none)

/-- Per-attempt provider behaviour for the retry loop: the embed and
upsert outcomes attempt `n` would observe. -/
structure AttemptOracle where
  embedOutcome : Except String EmbedResult
  upsertOutcome : Except String Unit

/-- What `syncVectorWithRetry` leaves behind: the final state, the error
it throws (if any), how many `syncVector` calls it made, and the sleep
durations (ms) it awaited between attempts. -/
structure RetryOutcome where
  state : SyncState
  error : Option String
  attempts : Nat
  delays : List Nat

/-- The error thrown when the record vanished during the retry delay:
`QA ${qaId} not found after retry delay`. -/
def notFoundMsg (qaId : String) : String :=
  "QA " ++ qaId ++ " not found after retry delay"

/-- The `while (syncAttempts < maxAttempts && !syncSuccess)` loop of
`qaService.syncVectorWithRetry`, entered with `syncAttempts` attempts
already made and `delays` already slept.  A successful `syncVector` ends
the loop; a failure with budget left sleeps `attempt * 1000` ms, re-reads
the record by id (aborting with a not-found error if it is gone) and
retries; a failure on the last attempt rethrows that error. -/
def retryGo (env : Env) (oracles : Nat → AttemptOracle) (now : String)
    (maxAttempts : Nat) (qaId : String) (qa : QAPair) (st : SyncState)
    (syncAttempts : Nat) (delays : List Nat) : RetryOutcome :=
  if _h : syncAttempts < maxAttempts then
    let n := syncAttempts + 1
    let res := syncVector env (oracles n).embedOutcome (oracles n).upsertOutcome
      now qa st
    match res.2 with
    | none => { state := res.1, error := none, attempts := n, delays := delays }
    | some e =>
        if n < maxAttempts then
          let d := n * 1000
          match getById res.1.table qaId with
          | none =>
              { state := res.1, error := some (notFoundMsg qaId),
                attempts := n, delays := delays ++ [d] }
          | some qa' =>
              retryGo env oracles now maxAttempts qaId qa' res.1 n
                (delays ++ [d])
        else { state := res.1, error := some e, attempts := n, delays := delays }
  else { state := st, error := none, attempts := syncAttempts, delays := delays }
  termination_by maxAttempts - syncAttempts
  decreasing_by omega

/-- `qaService.syncVectorWithRetry(qa, maxAttempts)` (default
`maxAttempts = 3` at call sites). -/
def syncVectorWithRetry (env : Env) (oracles : Nat → AttemptOracle)
    (now : String) (maxAttempts : Nat) (qa : QAPair) (st : SyncState) :
    RetryOutcome :=
  retryGo env oracles now maxAttempts qa.id qa st 0 []

/-! ## Vector deletion (`removeVector`, `deleteAll`) -/

/-- What the vector index answers to a delete call. -/
inductive DeleteOutcome where
  | ok
  | notFound
  | err (msg : String)
  deriving Repr, DecidableEq

/-- `pineconeService.deleteVector`: no-op when unconfigured; a "not found"
response from the index is swallowed (idempotent delete); other errors are
rethrown. -/
def deleteVector (cfg : Bool) (outcome : DeleteOutcome) : Except String Unit :=
  if cfg = false then Except.ok ()
  else
    match outcome with
    | DeleteOutcome.ok => Except.ok ()
    | DeleteOutcome.notFound => Except.ok ()
    | DeleteOutcome.err m => Except.error m

/-- Result of `qaService.removeVector`. -/
structure RemoveResult where
  removed : Bool
  skipped : Bool
  error : Option String
  deriving Repr, DecidableEq

/-- `qaService.removeVector(qa)`: skipped when Pinecone is unconfigured or
the id to delete (`pinecone_id ?? id`) is falsy; otherwise delete and
report `{removed: true}` on success, `{removed: false, error}` when the
delete throws. -/
def removeVector (cfg : Bool) (outcome : DeleteOutcome) (qa : QAPair) :
    RemoveResult :=
  if cfg = false then { removed := false, skipped := true, error := none }
  else
    let vectorId := qa.pinecone_id.getD qa.id
    if vectorId = "" then { removed := false, skipped := true, error := none }
    else
      match deleteVector cfg outcome with
      | Except.ok _ => { removed := true, skipped := false, error := none }
      | Except.error m =>
          { removed := false, skipped := false, error := some m }

/-- `pineconeService.deleteVectors(ids)`: no-op when unconfigured or `ids`
is empty; a "not found" response is swallowed; other errors rethrown. -/
def deleteVectors (cfg : Bool) (ids : List String) (outcome : DeleteOutcome) :
    Except String Unit :=
  if cfg = false then Except.ok ()
  else if ids = [] then Except.ok ()
  else
    match outcome with
    | DeleteOutcome.ok => Except.ok ()
    | DeleteOutcome.notFound => Except.ok ()
    | DeleteOutcome.err m => Except.error m

/-- The id a record's vector lives under: `pinecone_id ?? id`. -/
def vectorRefOf (r : QAPair) : String :=
  r.pinecone_id.getD r.id

/-- Result of `qaService.deleteAll`. -/
structure DeleteAllResult where
  deleted : Nat
  vectorFailures : List String
  deriving Repr, DecidableEq

/-- `qaService.deleteAll()`: collect every row's `pinecone_id ?? id`
(dropping empty strings), attempt one bulk vector delete when configured
and non-trivial — a throw accumulates all attempted ids into
`vectorFailures` instead of aborting — then delete every canonical row
unconditionally, reporting `deleted = info.changes` (the full row count). -/
def deleteAll (cfg : Bool) (bulkOutcome : DeleteOutcome) (tbl : List QAPair) :
    List QAPair × DeleteAllResult :=
  let vectorIds := (tbl.map vectorRefOf).filter (fun s => !(s = ""))
  let vectorFailures :=
    if !(vectorIds = []) && cfg then
      match deleteVectors cfg vectorIds bulkOutcome with
      | Except.ok _ => []
      | Except.error _ => vectorIds
    else []
  ([], { deleted := tbl.length, vectorFailures := vectorFailures })

/-- The sleep sequence after `k` waits of the retry loop:
`1000, 2000, ..., k*1000` ms (`delay = syncAttempts * 1000`). -/
def backoffPattern (k : Nat) : List Nat :=
  (List.range k).map fun i => (i + 1) * 1000

/-! ## Rerank service (`rerankService.ts`) -/

/-- A JS number as the rerank code observes it: a finite value or one of
the non-finite values (`Number.isFinite` distinguishes them). -/
inductive JNum where
  | fin (q : ℚ)
  | nan
  | posInf
  | negInf
  deriving Repr, DecidableEq

/-- `typeof score === "number" && Number.isFinite(score) ? score : 0`
(`none` stands for a missing or non-number value). -/
def jsFiniteScore (s : Option JNum) : ℚ :=
  match s with
  | some (JNum.fin q) => q
  | _ => 0

/-- One entry of the provider's `response.data`: a candidate index and a
relevance score, either of which may be missing or malformed. -/
structure RerankItem where
  index : Option Int
  score : Option JNum
  deriving Repr, DecidableEq

/-- A rerank provider response.  The `usage.rerankUnits` field only feeds
the advisory daily-quota counter (`recordUsage`), which no claim touches,
so it is not modelled. -/
structure ProviderResponse where
  data : List RerankItem
  deriving Repr, DecidableEq

/-- Input candidate of `rerankService.rerank` (`{id, text}`). -/
structure RerankCandidate where
  id : String
  text : String
  deriving Repr, DecidableEq

/-- Output entry of `rerankService.rerank` (`{id, score}`). -/
structure RerankResult where
  id : String
  score : ℚ
  deriving Repr, DecidableEq

/-- Outcome of `rerankService.rerank` (without the advisory `usage`
report). -/
structure RerankExecution where
  model : Option String
  results : List RerankResult
  attemptedModels : List String
  warning : Option String
  deriving Repr, DecidableEq

/-- `Array.from(new Set(values))`: first-occurrence deduplication. -/
def uniqueFirst (l : List String) : List String :=
  l.foldl (fun acc x => if x ∈ acc then acc else acc ++ [x]) []

/-- `getCandidateModels()`: the primary then the fallback model, keeping
only non-blank names, deduplicated. -/
def getCandidateModels (env : Env) : List String :=
  uniqueFirst (([env.PINECONE_RERANK_MODEL,
    env.PINECONE_RERANK_FALLBACK_MODEL].filterMap id).filter
      (fun s => !(jsTrim s = "")))

/-- `rerankService.isConfigured()`. -/
def rerankConfigured (env : Env) : Bool :=
  env.pineconeConfigured && !(getCandidateModels env).isEmpty

/-- The response mapping inside the model loop: keep entries whose
`index` is a number and a valid position in the candidate list (others are
dropped with a warning, never an out-of-bounds access), pair the
candidate's id with the sanitised score, and truncate to `topK`. -/
def mapResults (candidates : List RerankCandidate) (topK : Nat)
    (data : List RerankItem) : List RerankResult :=
  (data.filterMap fun item =>
    let candidate : Option RerankCandidate :=
      match item.index with
      | some i =>
          if 0 ≤ i ∧ i < (candidates.length : Int) then candidates.get? i.toNat
          else none
      | none => none
    candidate.map fun c =>
      ({ id := c.id, score := jsFiniteScore item.score } : RerankResult)).take
    topK

/-- `modelErrors.join(" | ")`. -/
def joinErrors (errors : List String) : String :=
  String.intercalate " | " errors

/-- The `for (const model of getCandidateModels())` loop of
`rerankService.rerank`: try each model in order; a throw or an empty
result list records a per-model error and moves on; the first model with
results wins.  Provider errors are modelled as their description strings
(`describeError`). -/
def rerankGo (provider : String → Except String ProviderResponse)
    (candidates : List RerankCandidate) (topK : Nat) :
    List String → List String → List String → RerankExecution
  | [], attempted, modelErrors =>
      { model := none, attemptedModels := attempted, results := [],
        warning := if modelErrors = [] then some "All rerank models failed"
                   else some (joinErrors modelErrors) }
  | m :: rest, attempted, modelErrors =>
      let attempted' := attempted ++ [m]
      match provider m with
      | Except.ok resp =>
          let results := mapResults candidates topK resp.data
          if results = [] then
            rerankGo provider candidates topK rest attempted'
              (modelErrors ++ [m ++ ": rerank returned no results"])
          else
            { model := some m, attemptedModels := attempted',
              results := results,
              warning := if modelErrors = [] then none
                         else some (joinErrors modelErrors) }
      | Except.error e =>
          rerankGo provider candidates topK rest attempted'
            (modelErrors ++ [m ++ ": " ++ e])

/-- `rerankService.rerank(query, candidates, topK)`.  `inferenceAvailable`
models `pineconeClient.getInference()` being non-null; `provider m` is the
outcome of `inference.rerank(m, query, documents)` for this search's query
and documents. -/
def rerankExec (env : Env) (inferenceAvailable : Bool)
    (provider : String → Except String ProviderResponse)
    (candidates : List RerankCandidate) (topK : Nat) : RerankExecution :=
  if rerankConfigured env = false then
    { model := none, attemptedModels := [], results := [],
      warning := some "Rerank model is not configured" }
  else if inferenceAvailable = false then
    { model := none, attemptedModels := [], results := [],
      warning := some "Pinecone inference client not initialised" }
  else rerankGo provider candidates topK (getCandidateModels env) [] []

/-! ## Search route: candidate reconciliation (`routes/search.ts`,
newest variant) -/

/-- JS `new Map(entries).get(k)`: the value of the *last* entry whose key
is `k`. -/
def jsMapGet {A : Type} (entries : List (String × A)) (k : String) :
    Option A :=
  (entries.reverse.find? (fun p => p.1 = k)).map (fun p => p.2)

/-- The `{question, answer, language}` metadata of a vector query match,
each field present only when the stored value is a string
(`typeof metadata.x === "string"`); an absent metadata object is all-none
(`match.metadata ?? {}`). -/
structure MatchMeta where
  question : Option String
  answer : Option String
  language : Option String
  deriving Repr, DecidableEq

/-- One vector-query hit: `{id?, score?, metadata}`. -/
structure VectorMatch where
  id : Option String
  score : Option ℚ
  metadata : MatchMeta
  deriving Repr, DecidableEq

/-- The reconciled text of a candidate (nested `qa` object). -/
structure CandidateQA where
  id : String
  question : String
  answer : String
  language : String
  deriving Repr, DecidableEq

/-- A reconciled search candidate. -/
structure Candidate where
  id : String
  baseScore : ℚ
  text : String
  hasMetadata : Bool
  qa : CandidateQA
  deriving Repr, DecidableEq

/-- `matches.map(m => m.id).filter(v => typeof v === "string" && v.length > 0)`. -/
def matchIds (hits : List VectorMatch) : List String :=
  (hits.filterMap (fun m => m.id)).filter (fun s => !(s = ""))

/-- `qaById`: the lookup map built from
`ids.length > 0 ? qaService.findByIds(ids) : []`. -/
def qaLookup (tbl : List QAPair) (ids : List String) :
    String → Option QAPair :=
  fun i =>
    jsMapGet ((if ids = [] then [] else findByIds tbl ids).map
      fun qa => (qa.id, qa)) i

/-- Candidate reconciliation for one vector match: take
question/answer/language from the match's own metadata when present,
otherwise from the canonical record with the same id; a hit with neither
source, or with a blank reconciled question/answer (JS falsiness), is
dropped (`null`), never an error. -/
def buildCandidate (lookup : String → Option QAPair) (m : VectorMatch) :
    Option Candidate :=
  match m.id with
  | none => none
  | some mid =>
      if mid = "" then none
      else
        let baseScore := (m.score).getD 0
        let fallback := lookup mid
        let hasMetadata := (m.metadata.question).isSome &&
          (m.metadata.answer).isSome
        if hasMetadata = false ∧ fallback = none then none
        else
          let question := match m.metadata.question with
            | some q => some q
            | none => fallback.map (fun r => r.question)
          let answer := match m.metadata.answer with
            | some a => some a
            | none => fallback.map (fun r => r.answer)
          let language := match m.metadata.language with
            | some l => l
            | none => (fallback.map (fun r => r.language)).getD "ru"
          match question, answer with
          | some q, some a =>
              if q = "" ∨ a = "" then none
              else some { id := mid, baseScore := baseScore,
                          text := q ++ "\n\n" ++ a,
                          hasMetadata := hasMetadata,
                          qa := { id := mid, question := q, answer := a,
                                  language := language } }
          | _, _ => none

/-- The full candidate list of a search: reconcile every match, dropping
the unusable ones. -/
def buildCandidates (tbl : List QAPair) (hits : List VectorMatch) :
    List Candidate :=
  hits.filterMap (buildCandidate (qaLookup tbl (matchIds hits)))

/-! ## Search route: rerank step and assembly -/

/-- `pipeline.rerank.fallbackReason`, with the code's template strings
represented structurally (the `lowScore` constructor stands for
`Reranker found no relevant answer (top score: ...)`). -/
inductive FallbackReason where
  | notConfigured
  | lowScore (top : ℚ)
  | warningMsg (w : String)
  | noResults
  | rerankThrew (msg : String)
  deriving Repr, DecidableEq

/-- The `pipeline.rerank` trace (without the advisory `usage` report). -/
structure RerankTrace where
  model : Option String
  applied : Bool
  fallbackReason : Option FallbackReason
  attemptedModels : List String
  deriving Repr, DecidableEq

/-- One row of the response's `matches`/`vectorMatches` lists. -/
structure ResultRow where
  id : String
  score : ℚ
  vectorScore : ℚ
  rerankScore : Option ℚ
  question : String
  answer : String
  language : String
  deriving Repr, DecidableEq

/-- The response of the newest search route. -/
structure SearchResponseV2 where
  «matches» : List ResultRow
  vectorMatches : Option (List ResultRow)
  rerankerRejected : Bool
  topRerankScore : Option ℚ
  rerank : RerankTrace
  deriving Repr, DecidableEq

/-- `vectorResults`: a candidate rendered in raw vector order. -/
def toVectorRow (c : Candidate) : ResultRow :=
  { id := c.qa.id, score := c.baseScore, vectorScore := c.baseScore,
    rerankScore := none, question := c.qa.question, answer := c.qa.answer,
    language := c.qa.language }

/-- The newest search route's rerank step and response assembly (after
candidate reconciliation): runs the rerank chain when configured and
candidates exist, applies the `0.01` confidence gate to the top rerank
score, builds `results` only from an applied rerank ordering, and exposes
the vector-ordered candidates separately exactly when the reranker
rejected the query.  `outcome` is the (possibly throwing) result of
`rerankService.rerank`. -/
def searchAssembleV2 (env : Env) (outcome : Except String RerankExecution)
    (candidates : List Candidate) (topK : Nat) : SearchResponseV2 :=
  let vectorResults := candidates.map toVectorRow
  let trace0 : RerankTrace :=
    { model := none, applied := false,
      fallbackReason := if rerankConfigured env then none
                        else some FallbackReason.notConfigured,
      attemptedModels := if rerankConfigured env then getCandidateModels env
                         else [] }
  let step : RerankTrace × List RerankResult × Bool × ℚ :=
    if rerankConfigured env = true ∧ ¬(candidates = []) then
      match outcome with
      | Except.ok o =>
          let trace1 := { trace0 with
                            model := o.model,
                            attemptedModels := o.attemptedModels }
          if ¬(o.results = []) then
            let top := (((o.results).head?).map (fun r => r.score)).getD 0
            if top < 1 / 100 then
              ({ trace1 with
                   applied := false,
                   fallbackReason := some (FallbackReason.lowScore top) },
               [], true, top)
            else
              ({ trace1 with
                   applied := true,
                   fallbackReason := (o.warning).map FallbackReason.warningMsg },
               o.results, false, top)
          else
            ({ trace1 with
                 applied := false,
                 fallbackReason := some ((o.warning).elim
                   FallbackReason.noResults FallbackReason.warningMsg) },
             [], false, 0)
      | Except.error e =>
          ({ trace0 with
               applied := false,
               fallbackReason := some (FallbackReason.rerankThrew e),
               attemptedModels := getCandidateModels env },
           [], false, 0)
    else (trace0, [], false, 0)
  let trace := step.1
  let rerankedResults := step.2.1
  let rejected := step.2.2.1
  let top := step.2.2.2
  let candidateById := candidates.map fun c => (c.id, c)
  let results : List ResultRow :=
    if trace.applied = true ∧ ¬(rerankedResults = []) then
      rerankedResults.filterMap fun rr =>
        (jsMapGet candidateById rr.id).map fun c =>
          { id := c.qa.id, score := rr.score, vectorScore := c.baseScore,
            rerankScore := some rr.score, question := c.qa.question,
            answer := c.qa.answer, language := c.qa.language }
    else []
  { «matches» := if rejected then [] else results.take topK,
    vectorMatches := if rejected then some (vectorResults.take topK) else none,
    rerankerRejected := rejected,
    topRerankScore := if rejected then some top else none,
    rerank := trace }

/-! ## Theorems -/

/-- A `find?` by key returns exactly the unique element carrying that key. -/
theorem find?_key_eq {α β : Type} [DecidableEq β] (f : α → β) (k : β)
    (l : List α) (x : α) (hnd : (l.map f).Nodup) (hx : x ∈ l) (hk : f x = k) :
    l.find? (fun a => f a = k) = some x := by
  induction l with
  | nil => cases hx
  | cons a l ih =>
      rw [List.map_cons, List.nodup_cons] at hnd
      rcases List.mem_cons.mp hx with rfl | hxl
      · simp [List.find?_cons, hk]
      · have hne : ¬ (f a = k) := by
          intro hak
          exact hnd.1 (hak ▸ hk ▸ List.mem_map_of_mem f hxl)
        simp only [List.find?_cons, hne, decide_eq_true_eq, decide_False]
        exact ih hnd.2 hxl

/-- `getById` of the unique row with a given id. -/
theorem getById_eq_of_mem (tbl : List QAPair) (r : QAPair)
    (hnd : (tbl.map (·.id)).Nodup) (hr : r ∈ tbl) :
    getById tbl r.id = some r := by
  unfold getById
  exact find?_key_eq (fun s : QAPair => s.id) r.id tbl r hnd hr rfl

/-- `updateRow` rewrites exactly the looked-up row, in place. -/
theorem getById_updateRow (tbl : List QAPair) (id q a lang now : String)
    (r : QAPair) (h : getById tbl id = some r) :
    getById (updateRow tbl id q a lang now) id =
      some { r with question := q, answer := a, language := lang,
                    updated_at := now, embedding_status := "pending" } := by
  unfold getById updateRow
  rw [List.find?_map]
  unfold getById at h
  have hcomp :
      ((fun s : QAPair => decide (s.id = id)) ∘
        (fun s : QAPair =>
          if s.id = id then
            { s with question := q, answer := a, language := lang,
                     updated_at := now, embedding_status := "pending" }
          else s)) = fun s : QAPair => decide (s.id = id) := by
    funext s
    by_cases hs : s.id = id <;> simp [hs]
  rw [hcomp, h]
  have hrid : r.id = id := by
    have := List.find?_some h
    simpa using this
  simp [Option.map_some, hrid]

/-- Appending a row with a fresh id and looking it up by that id. -/
theorem getById_append_fresh (tbl : List QAPair) (row : QAPair)
    (hfresh : row.id ∉ tbl.map (·.id)) :
    getById (tbl ++ [row]) row.id = some row := by
  unfold getById
  induction tbl with
  | nil => simp
  | cons a l ih =>
      have hne : ¬ (a.id = row.id) := by
        intro h
        exact hfresh (by simp [h])
      have hfresh' : row.id ∉ l.map (·.id) := fun h => hfresh (by simp [h])
      simp only [List.cons_append, List.find?_cons, hne, decide_False]
      exact ih hfresh'

/-- C1. In-place replace on a colliding question (case-insensitive,
whitespace-trimmed): `create` returns `replaced = true`, keeps the existing
row's `id`, stores the newest answer/language and resets
`embedding_status` to `pending`.  With no colliding question, `create`
inserts a fresh row with status `pending` and returns `replaced = false`. -/
theorem create_idempotent_replace_or_insert
    (tbl : List QAPair) (freshId now : String) (input : CreateInput)
    (hndq : (tbl.map (fun r => sqlNormQuestion r.question)).Nodup)
    (hndid : (tbl.map (·.id)).Nodup) :
    (∀ ex ∈ tbl,
      sqlNormQuestion ex.question = sqlNormQuestion (jsTrim input.question) →
      (create tbl freshId now input).replaced = true ∧
      (create tbl freshId now input).record =
        some { ex with question := (jsTrim input.question),
                       answer := (jsTrim input.answer),
                       language := input.language.getD "ru",
                       updated_at := now, embedding_status := "pending" }) ∧
    ((∀ r ∈ tbl,
        sqlNormQuestion r.question ≠ sqlNormQuestion (jsTrim input.question)) →
      freshId ∉ tbl.map (·.id) →
      (create tbl freshId now input).replaced = false ∧
      (create tbl freshId now input).record =
        some { id := freshId, question := (jsTrim input.question),
               answer := (jsTrim input.answer),
               language := input.language.getD "ru", pinecone_id := none,
               embedding_status := "pending", created_at := now,
               updated_at := now } ∧
      (create tbl freshId now input).table =
        tbl ++ [{ id := freshId, question := (jsTrim input.question),
                  answer := (jsTrim input.answer),
                  language := input.language.getD "ru", pinecone_id := none,
                  embedding_status := "pending", created_at := now,
                  updated_at := now }]) := by
  constructor
  · intro ex hex hq
    have hfind : getByQuestion tbl (jsTrim input.question) = some ex := by
      unfold getByQuestion
      exact find?_key_eq (fun r : QAPair => sqlNormQuestion r.question) _
        tbl ex hndq hex hq
    have hbyid : getById tbl ex.id = some ex := getById_eq_of_mem tbl ex hndid hex
    have hupd := getById_updateRow tbl ex.id (jsTrim input.question)
      (jsTrim input.answer) (input.language.getD "ru") now ex hbyid
    simp only [create, hfind]
    exact ⟨by trivial, by simpa using hupd⟩
  · intro hno hfresh
    have hfind : getByQuestion tbl (jsTrim input.question) = none := by
      unfold getByQuestion
      rw [List.find?_eq_none]
      intro r hr
      simpa using hno r hr
    simp only [create, hfind]
    refine ⟨by trivial, ?_, by trivial⟩
    simpa using getById_append_fresh tbl
      { id := freshId, question := (jsTrim input.question),
        answer := (jsTrim input.answer), language := input.language.getD "ru",
        pinecone_id := none, embedding_status := "pending",
        created_at := now, updated_at := now } hfresh

/-- Witness for C1: both branches evaluated on concrete tables. -/
theorem create_idempotent_replace_or_insert_witness :
    (create [{ id := "a1", question := "How?", answer := "So.",
               language := "ru", pinecone_id := none,
               embedding_status := "ready", created_at := "t0",
               updated_at := "t0" }] "b2" "t1"
        { question := "  how?  ", answer := "New.", language := some "en" }).replaced
      = true ∧
    (create [{ id := "a1", question := "How?", answer := "So.",
               language := "ru", pinecone_id := none,
               embedding_status := "ready", created_at := "t0",
               updated_at := "t0" }] "b2" "t1"
        { question := "Other?", answer := "New.", language := none }).replaced
      = false := by
  have h1 := create_idempotent_replace_or_insert
    [{ id := "a1", question := "How?", answer := "So.", language := "ru",
       pinecone_id := none, embedding_status := "ready", created_at := "t0",
       updated_at := "t0" }] "b2" "t1"
    { question := "  how?  ", answer := "New.", language := some "en" }
    (by decide) (by decide)
  have h2 := create_idempotent_replace_or_insert
    [{ id := "a1", question := "How?", answer := "So.", language := "ru",
       pinecone_id := none, embedding_status := "ready", created_at := "t0",
       updated_at := "t0" }] "b2" "t1"
    { question := "Other?", answer := "New.", language := none }
    (by decide) (by decide)
  constructor
  · exact (h1.1 ⟨"a1", "How?", "So.", "ru", none, "ready", "t0", "t0"⟩
      (by decide) (by decide)).1
  · exact (h2.2 (by decide) (by decide)).1

/-- The pseudo-embedding always has the fallback dimension 1536. -/
theorem fakeEmbedding_length (t : String) : (fakeEmbedding t).length = 1536 := by
  unfold fakeEmbedding
  have h : (t.toUTF8.toList.take 1536).length ≤ 1536 := by
    rw [List.length_take]
    omega
  simp only [List.length_append, List.length_map, List.length_replicate]
  omega

/-- The pseudo-embedding is never empty. -/
theorem fakeEmbedding_ne_nil (t : String) : fakeEmbedding t ≠ [] := by
  intro h
  have := fakeEmbedding_length t
  rw [h] at this
  simp at this

/-- C5. `syncVector` (the spec's `syncOne`): the embed request carries
`question + blank line + answer` with the document (`"passage"`) input
type under the default configuration; an empty returned vector sets status
`skipped` with no error; a non-empty vector is upserted as
`(id = record.id, vector, {question, answer, language})` into namespace
`"qa"` and on success the record becomes `ready` with
`pinecone_id = record.id`; a thrown embed or upsert error sets status
`failed` and is rethrown. -/
theorem syncVector_spec
    (env : Env) (eo : Except String EmbedResult) (uo : Except String Unit)
    (now : String) (qa : QAPair) (st : SyncState) :
    (env.PINECONE_EMBED_INPUT_TYPE = none →
      syncEmbedRequest env qa =
        { text := qa.question ++ "\n\n" ++ qa.answer, inputType := "passage" }) ∧
    (∀ m, embed env eo (syncText qa) = Except.ok ⟨[], m⟩ →
      syncVector env eo uo now qa st =
        ({ st with table := setStatus st.table qa.id "skipped" }, none)) ∧
    (∀ res, embed env eo (syncText qa) = Except.ok res → res.embedding ≠ [] →
      env.pineconeConfigured = true → uo = Except.ok () →
      syncVector env eo uo now qa st =
        ({ table := setSynced st.table qa.id qa.id now,
           index := upsertEntry st.index
             { id := qa.id, values := res.embedding,
               metadata := some { question := qa.question, answer := qa.answer,
                                  language := qa.language },
               ns := "qa" } }, none)) ∧
    (∀ e, embed env eo (syncText qa) = Except.error e →
      syncVector env eo uo now qa st =
        ({ st with table := setFailed st.table qa.id now }, some e)) ∧
    (∀ res e, embed env eo (syncText qa) = Except.ok res → res.embedding ≠ [] →
      env.pineconeConfigured = true → uo = Except.error e →
      syncVector env eo uo now qa st =
        ({ st with table := setFailed st.table qa.id now }, some e)) := by
  refine ⟨?_, ?_, ?_, ?_, ?_⟩
  · intro h
    simp [syncEmbedRequest, syncText, h]
  · intro m h
    simp [syncVector, h]
  · intro res h hne hcfg huo
    simp [syncVector, h, hne, hcfg, huo, upsertVector]
  · intro e h
    simp [syncVector, h]
  · intro res e h hne hcfg huo
    simp [syncVector, h, hne, hcfg, huo, upsertVector]

/-- Witness for C5: a configured environment, a one-dimensional embedding
and a successful upsert on a singleton store. -/
theorem syncVector_spec_witness :
    syncEmbedRequest ⟨true, some "m", none, none, none, none⟩
        ⟨"a1", "Q", "A", "ru", none, "pending", "t0", "t0"⟩ =
      { text := "Q\n\nA", inputType := "passage" } ∧
    syncVector ⟨true, some "m", none, none, none, none⟩
        (Except.ok ⟨[(1 : ℚ)], "m"⟩) (Except.ok ()) "t1"
        ⟨"a1", "Q", "A", "ru", none, "pending", "t0", "t0"⟩
        ⟨[⟨"a1", "Q", "A", "ru", none, "pending", "t0", "t0"⟩], []⟩ =
      ({ table := [⟨"a1", "Q", "A", "ru", some "a1", "ready", "t0", "t1"⟩],
         index := [⟨"a1", [(1 : ℚ)], some ⟨"Q", "A", "ru"⟩, "qa"⟩] }, none) := by
  have h := syncVector_spec ⟨true, some "m", none, none, none, none⟩
    (Except.ok ⟨[(1 : ℚ)], "m"⟩) (Except.ok ()) "t1"
    ⟨"a1", "Q", "A", "ru", none, "pending", "t0", "t0"⟩
    ⟨[⟨"a1", "Q", "A", "ru", none, "pending", "t0", "t0"⟩], []⟩
  constructor
  · exact h.1 rfl
  · have h3 := h.2.2.1 ⟨[(1 : ℚ)], "m"⟩ (by rfl) (by decide) rfl rfl
    rw [h3]
    decide

/-- C9. With Pinecone unconfigured, `syncVector` still marks the record
`ready` with `pinecone_id = id` (the pseudo-embedding is non-empty and the
upsert is a silent no-op), and the vector index is left unchanged — so
`ready` does not certify that a vector exists anywhere. -/
theorem syncVector_unconfigured_still_ready
    (env : Env) (eo : Except String EmbedResult) (uo : Except String Unit)
    (now : String) (qa : QAPair) (st : SyncState)
    (hcfg : env.pineconeConfigured = false) :
    syncVector env eo uo now qa st =
      ({ table := setSynced st.table qa.id qa.id now, index := st.index },
        none) ∧
    (syncVector env eo uo now qa st).1.index = st.index := by
  have hec : embeddingConfigured env = false := by
    simp [embeddingConfigured, hcfg]
  have hmain : syncVector env eo uo now qa st =
      ({ table := setSynced st.table qa.id qa.id now, index := st.index },
        none) := by
    simp [syncVector, embed, hec, fakeEmbedding_ne_nil, upsertVector, hcfg]
  exact ⟨hmain, by rw [hmain]⟩

/-- Witness for C9: an unconfigured environment on a singleton store with
an empty index. -/
theorem syncVector_unconfigured_still_ready_witness :
    syncVector ⟨false, none, none, none, none, none⟩
        (Except.error "unused") (Except.error "unused") "t1"
        ⟨"a1", "Q", "A", "ru", none, "pending", "t0", "t0"⟩
        ⟨[⟨"a1", "Q", "A", "ru", none, "pending", "t0", "t0"⟩], []⟩ =
      ({ table := [⟨"a1", "Q", "A", "ru", some "a1", "ready", "t0", "t1"⟩],
         index := [] }, none) := by
  have h := syncVector_unconfigured_still_ready
    ⟨false, none, none, none, none, none⟩
    (Except.error "unused") (Except.error "unused") "t1"
    ⟨"a1", "Q", "A", "ru", none, "pending", "t0", "t0"⟩
    ⟨[⟨"a1", "Q", "A", "ru", none, "pending", "t0", "t0"⟩], []⟩ rfl
  rw [h.1]
  decide

/-- C7 counterexample: a record whose vector is already absent (the index
answers "not found") gets `removed = true`, not the claimed
`removed = false` — `deleteVector` swallows the not-found and
`removeVector` reports an ordinary successful delete. -/
theorem removeVector_notFound_counterexample :
    ¬ ((removeVector true DeleteOutcome.notFound
        ⟨"a1", "Q", "A", "ru", none, "ready", "t0", "t0"⟩).removed = false) := by
  decide

/-- C7 amended. A "not found" answer from the index is treated as a plain
successful delete: `removed = true, skipped = false`, never an error; and
with the vector index unconfigured, `removeVector` returns
`skipped = true`. -/
theorem removeVector_idempotent_amended (qa : QAPair) :
    (vectorRefOf qa ≠ "" →
      removeVector true DeleteOutcome.notFound qa =
        { removed := true, skipped := false, error := none }) ∧
    (∀ outcome, removeVector false outcome qa =
        { removed := false, skipped := true, error := none }) := by
  constructor
  · intro h
    simp [removeVector, deleteVector, vectorRefOf] at h ⊢
    intro hempty
    exact absurd hempty h
  · intro outcome
    simp [removeVector]

/-- Witness for C7's amended claim. -/
theorem removeVector_idempotent_amended_witness :
    removeVector true DeleteOutcome.notFound
        ⟨"a1", "Q", "A", "ru", none, "ready", "t0", "t0"⟩ =
      { removed := true, skipped := false, error := none } :=
  (removeVector_idempotent_amended
      ⟨"a1", "Q", "A", "ru", none, "ready", "t0", "t0"⟩).1 (by decide)

/-- C8. `deleteAll` always empties the canonical table and reports
`deleted` equal to the full row count; when the bulk vector delete throws,
every attempted id (`pinecone_id ?? id` of each row) lands in
`vectorFailures` instead of aborting the teardown. -/
theorem deleteAll_bulk_failure_accounting
    (cfg : Bool) (bulk : DeleteOutcome) (tbl : List QAPair) :
    (deleteAll cfg bulk tbl).1 = [] ∧
    (deleteAll cfg bulk tbl).2.deleted = tbl.length ∧
    (∀ m, bulk = DeleteOutcome.err m → tbl ≠ [] →
      (∀ r ∈ tbl, vectorRefOf r ≠ "") →
      (deleteAll true bulk tbl).2.vectorFailures = tbl.map vectorRefOf) := by
  refine ⟨rfl, rfl, ?_⟩
  intro m hm htne hall
  have hfilter : (tbl.map vectorRefOf).filter (fun s => !(s = "")) =
      tbl.map vectorRefOf := by
    rw [List.filter_eq_self]
    intro s hs
    rcases List.mem_map.mp hs with ⟨r, hr, rfl⟩
    simpa using hall r hr
  have hne : ¬ (tbl.map vectorRefOf = []) := by
    intro h
    exact htne (List.map_eq_nil_iff.mp h)
  subst hm
  simp only [deleteAll, hfilter]
  simp [deleteVectors, hne]

/-- Witness for C8: ten records, a throwing bulk delete; all ten ids are
reported as vector failures and all ten rows are deleted. -/
theorem deleteAll_bulk_failure_accounting_witness :
    (deleteAll true (DeleteOutcome.err "boom")
        [⟨"r0", "q", "a", "ru", none, "ready", "t", "t"⟩,
         ⟨"r1", "q", "a", "ru", none, "ready", "t", "t"⟩,
         ⟨"r2", "q", "a", "ru", none, "ready", "t", "t"⟩,
         ⟨"r3", "q", "a", "ru", none, "ready", "t", "t"⟩,
         ⟨"r4", "q", "a", "ru", some "p4", "ready", "t", "t"⟩,
         ⟨"r5", "q", "a", "ru", none, "ready", "t", "t"⟩,
         ⟨"r6", "q", "a", "ru", none, "ready", "t", "t"⟩,
         ⟨"r7", "q", "a", "ru", none, "ready", "t", "t"⟩,
         ⟨"r8", "q", "a", "ru", none, "ready", "t", "t"⟩,
         ⟨"r9", "q", "a", "ru", none, "ready", "t", "t"⟩]).2.deleted = 10 ∧
    (deleteAll true (DeleteOutcome.err "boom")
        [⟨"r0", "q", "a", "ru", none, "ready", "t", "t"⟩,
         ⟨"r1", "q", "a", "ru", none, "ready", "t", "t"⟩,
         ⟨"r2", "q", "a", "ru", none, "ready", "t", "t"⟩,
         ⟨"r3", "q", "a", "ru", none, "ready", "t", "t"⟩,
         ⟨"r4", "q", "a", "ru", some "p4", "ready", "t", "t"⟩,
         ⟨"r5", "q", "a", "ru", none, "ready", "t", "t"⟩,
         ⟨"r6", "q", "a", "ru", none, "ready", "t", "t"⟩,
         ⟨"r7", "q", "a", "ru", none, "ready", "t", "t"⟩,
         ⟨"r8", "q", "a", "ru", none, "ready", "t", "t"⟩,
         ⟨"r9", "q", "a", "ru", none, "ready", "t", "t"⟩]).2.vectorFailures =
      ["r0", "r1", "r2", "r3", "p4", "r5", "r6", "r7", "r8", "r9"] := by
  have h := deleteAll_bulk_failure_accounting true (DeleteOutcome.err "boom")
    [⟨"r0", "q", "a", "ru", none, "ready", "t", "t"⟩,
     ⟨"r1", "q", "a", "ru", none, "ready", "t", "t"⟩,
     ⟨"r2", "q", "a", "ru", none, "ready", "t", "t"⟩,
     ⟨"r3", "q", "a", "ru", none, "ready", "t", "t"⟩,
     ⟨"r4", "q", "a", "ru", some "p4", "ready", "t", "t"⟩,
     ⟨"r5", "q", "a", "ru", none, "ready", "t", "t"⟩,
     ⟨"r6", "q", "a", "ru", none, "ready", "t", "t"⟩,
     ⟨"r7", "q", "a", "ru", none, "ready", "t", "t"⟩,
     ⟨"r8", "q", "a", "ru", none, "ready", "t", "t"⟩,
     ⟨"r9", "q", "a", "ru", none, "ready", "t", "t"⟩]
  refine ⟨h.2.1, ?_⟩
  rw [h.2.2 "boom" rfl (by decide) (by decide)]
  decide

/-- `backoffPattern k` has length `k`. -/
theorem backoffPattern_length (k : Nat) : (backoffPattern k).length = k := by
  simp [backoffPattern]


/-- Appending the next delay extends the backoff pattern. -/
theorem backoffPattern_succ (k : Nat) :
    backoffPattern k ++ [(k + 1) * 1000] = backoffPattern (k + 1) := by
  unfold backoffPattern
  rw [List.range_succ, List.map_append]
  simp


/-- `getById` commutes with an id-preserving row rewrite. -/
theorem getById_map_pres (g : QAPair → QAPair) (hg : ∀ r, (g r).id = r.id)
    (tbl : List QAPair) (i : String) :
    getById (tbl.map g) i = (getById tbl i).map g := by
  unfold getById
  rw [List.find?_map]
  have hcomp : ((fun r : QAPair => decide (r.id = i)) ∘ g) =
      fun r : QAPair => decide (r.id = i) := by
    funext r
    simp [hg]
  rw [hcomp]


/-- Marking a row failed neither adds nor removes rows. -/
theorem getById_setFailed (tbl : List QAPair) (id now i : String) :
    (getById (setFailed tbl id now) i).isSome = (getById tbl i).isSome := by
  unfold setFailed
  rw [getById_map_pres]
  · cases getById tbl i <;> simp
  · intro r
    by_cases h : r.id = id <;> simp [h]


/-- With a configured embedder, a thrown embed error makes `syncVector`
mark the record failed and rethrow. -/
theorem syncVector_embed_error (env : Env) (e : String)
    (uo : Except String Unit) (now : String) (qa : QAPair) (st : SyncState)
    (hconf : embeddingConfigured env = true) :
    syncVector env (Except.error e) uo now qa st =
      ({ st with table := setFailed st.table qa.id now }, some e) := by
  simp [syncVector, embed, hconf]


/-- The retry loop never makes more than `maxAttempts` calls. -/
theorem retryGo_attempts_le (env : Env) (oracles : Nat → AttemptOracle)
    (now : String) (maxAttempts : Nat) (qaId : String) :
    ∀ fuel s qa st delays, maxAttempts - s ≤ fuel → s ≤ maxAttempts →
    (retryGo env oracles now maxAttempts qaId qa st s delays).attempts ≤
      maxAttempts := by
  intro fuel
  induction fuel with
  | zero =>
      intro s qa st delays hf hs
      have hlt : ¬ s < maxAttempts := by omega
      unfold retryGo
      simp [hlt, hs]
  | succ fuel ih =>
      intro s qa st delays hf hs
      by_cases hlt : s < maxAttempts
      · unfold retryGo
        simp only [hlt, dif_pos]
        cases hres : (syncVector env (oracles (s + 1)).embedOutcome
            (oracles (s + 1)).upsertOutcome now qa st).2 with
        | none => simp [hres]; omega
        | some e =>
            simp only [hres]
            by_cases hlt2 : s + 1 < maxAttempts
            · simp only [hlt2, if_pos]
              cases hget : getById (syncVector env (oracles (s + 1)).embedOutcome
                  (oracles (s + 1)).upsertOutcome now qa st).1.table qaId with
              | none => simp [hget]; omega
              | some qa' =>
                  simp only [hget]
                  exact ih (s + 1) qa' _ _ (by omega) (by omega)
            · rw [if_neg hlt2]
              simp
              omega
      · unfold retryGo
        simp [hlt, hs]


/-- Invariant of the retry loop: the slept delays always form a prefix
of the linear backoff sequence, and there are at most as many sleeps as
attempts. -/
theorem retryGo_delays_spec (env : Env) (oracles : Nat → AttemptOracle)
    (now : String) (maxAttempts : Nat) (qaId : String) :
    ∀ fuel s qa st, maxAttempts - s ≤ fuel →
    (retryGo env oracles now maxAttempts qaId qa st s (backoffPattern s)).delays =
      backoffPattern
        (retryGo env oracles now maxAttempts qaId qa st s
          (backoffPattern s)).delays.length ∧
    (retryGo env oracles now maxAttempts qaId qa st s
        (backoffPattern s)).delays.length ≤
      (retryGo env oracles now maxAttempts qaId qa st s
        (backoffPattern s)).attempts := by
  intro fuel
  induction fuel with
  | zero =>
      intro s qa st hf
      have hlt : ¬ s < maxAttempts := by omega
      unfold retryGo
      simp [hlt, backoffPattern_length]
  | succ fuel ih =>
      intro s qa st hf
      by_cases hlt : s < maxAttempts
      · unfold retryGo
        simp only [hlt, dif_pos]
        cases hres : (syncVector env (oracles (s + 1)).embedOutcome
            (oracles (s + 1)).upsertOutcome now qa st).2 with
        | none => simp [hres, backoffPattern_length]
        | some e =>
            simp only [hres]
            by_cases hlt2 : s + 1 < maxAttempts
            · simp only [hlt2, if_pos]
              cases hget : getById (syncVector env (oracles (s + 1)).embedOutcome
                  (oracles (s + 1)).upsertOutcome now qa st).1.table qaId with
              | none =>
                  simp only [hget, backoffPattern_succ]
                  simp [backoffPattern_length]
              | some qa' =>
                  simp only [hget, backoffPattern_succ]
                  exact ih (s + 1) qa' _ (by omega)
            · rw [if_neg hlt2]
              simp [backoffPattern_length]
      · unfold retryGo
        simp [hlt, backoffPattern_length]


/-- If every attempt fails (and the record persists), the loop surfaces
the error of the last attempt. -/
theorem retryGo_all_fail (env : Env) (oracles : Nat → AttemptOracle)
    (now : String) (maxAttempts : Nat) (qaId : String) (efn : Nat → String)
    (hconf : embeddingConfigured env = true)
    (hfail : ∀ n, (oracles n).embedOutcome = Except.error (efn n)) :
    ∀ fuel s qa st delays, maxAttempts - s ≤ fuel → s < maxAttempts →
      (getById st.table qaId).isSome = true →
      (retryGo env oracles now maxAttempts qaId qa st s delays).error =
        some (efn maxAttempts) := by
  intro fuel
  induction fuel with
  | zero =>
      intro s qa st delays hf hs hp
      omega
  | succ fuel ih =>
      intro s qa st delays hf hs hp
      unfold retryGo
      rw [dif_pos hs]
      simp only [hfail (s + 1),
        syncVector_embed_error env (efn (s + 1)) (oracles (s + 1)).upsertOutcome
          now qa st hconf]
      by_cases hlt2 : s + 1 < maxAttempts
      · simp only [if_pos hlt2]
        have hpres : (getById (setFailed st.table qa.id now) qaId).isSome = true := by
          rw [getById_setFailed]
          exact hp
        cases hget : getById (setFailed st.table qa.id now) qaId with
        | none =>
            rw [hget] at hpres
            simp at hpres
        | some qa' =>
            simp only [hget]
            exact ih (s + 1) qa' _ _ (by omega) hlt2 (by
              rw [getById_setFailed]
              exact hp)
      · simp only [if_neg hlt2]
        have heq : s + 1 = maxAttempts := by omega
        simp [heq]


/-- If attempts up to `k-1` fail and attempt `k` succeeds, the loop stops
after exactly `k` calls with no error. -/
theorem retryGo_first_success (env : Env) (oracles : Nat → AttemptOracle)
    (now : String) (maxAttempts : Nat) (qaId : String) (k : Nat)
    (efn : Nat → String)
    (hconf : embeddingConfigured env = true)
    (hfail : ∀ n, 1 ≤ n → n < k → (oracles n).embedOutcome = Except.error (efn n))
    (hsucc : ∀ qa' st', (syncVector env (oracles k).embedOutcome
        (oracles k).upsertOutcome now qa' st').2 = none) :
    ∀ fuel s qa st delays, maxAttempts - s ≤ fuel → s < k → k ≤ maxAttempts →
      (getById st.table qaId).isSome = true →
      (retryGo env oracles now maxAttempts qaId qa st s delays).attempts = k ∧
      (retryGo env oracles now maxAttempts qaId qa st s delays).error = none := by
  intro fuel
  induction fuel with
  | zero =>
      intro s qa st delays hf hs hk hp
      omega
  | succ fuel ih =>
      intro s qa st delays hf hs hk hp
      have hsmax : s < maxAttempts := by omega
      unfold retryGo
      rw [dif_pos hsmax]
      by_cases hlast : s + 1 = k
      · subst hlast
        simp only [hsucc qa st]
        exact ⟨by trivial, by trivial⟩
      · have hlt : s + 1 < k := by omega
        simp only [hfail (s + 1) (by omega) hlt,
          syncVector_embed_error env (efn (s + 1))
            (oracles (s + 1)).upsertOutcome now qa st hconf]
        have hlt2 : s + 1 < maxAttempts := by omega
        simp only [if_pos hlt2]
        have hpres : (getById (setFailed st.table qa.id now) qaId).isSome = true := by
          rw [getById_setFailed]
          exact hp
        cases hget : getById (setFailed st.table qa.id now) qaId with
        | none =>
            rw [hget] at hpres
            simp at hpres
        | some qa' =>
            simp only [hget]
            exact ih (s + 1) qa' _ _ (by omega) hlt hk (by
              rw [getById_setFailed]
              exact hp)


/-- C6. `syncVectorWithRetry`: at most `maxAttempts` calls to `syncVector`
(default 3 at call sites); the waits between consecutive attempts follow
the linear backoff `attempt * 1000` ms; if attempts up to `k-1` fail and
attempt `k` succeeds the loop stops at attempt `k` without error; a record
deleted before a retry aborts with the not-found error; if every attempt
fails, the error of the last attempt is surfaced to the caller. -/
theorem syncVectorWithRetry_spec (env : Env) (oracles : Nat → AttemptOracle)
    (now : String) (maxAttempts : Nat) (qa : QAPair) (st : SyncState) :
    (syncVectorWithRetry env oracles now maxAttempts qa st).attempts ≤
      maxAttempts ∧
    ((syncVectorWithRetry env oracles now maxAttempts qa st).delays =
        backoffPattern
          (syncVectorWithRetry env oracles now maxAttempts qa st).delays.length ∧
      (syncVectorWithRetry env oracles now maxAttempts qa st).delays.length ≤
        (syncVectorWithRetry env oracles now maxAttempts qa st).attempts) ∧
    (∀ (k : Nat) (efn : Nat → String), embeddingConfigured env = true →
      (∀ n, 1 ≤ n → n < k → (oracles n).embedOutcome = Except.error (efn n)) →
      (∀ qa' st', (syncVector env (oracles k).embedOutcome
          (oracles k).upsertOutcome now qa' st').2 = none) →
      0 < k → k ≤ maxAttempts → (getById st.table qa.id).isSome = true →
      (syncVectorWithRetry env oracles now maxAttempts qa st).attempts = k ∧
      (syncVectorWithRetry env oracles now maxAttempts qa st).error = none) ∧
    (∀ (e : String), embeddingConfigured env = true →
      (oracles 1).embedOutcome = Except.error e →
      2 ≤ maxAttempts → getById st.table qa.id = none →
      (syncVectorWithRetry env oracles now maxAttempts qa st).error =
        some (notFoundMsg qa.id)) ∧
    (∀ (efn : Nat → String), embeddingConfigured env = true →
      (∀ n, (oracles n).embedOutcome = Except.error (efn n)) →
      0 < maxAttempts → (getById st.table qa.id).isSome = true →
      (syncVectorWithRetry env oracles now maxAttempts qa st).error =
        some (efn maxAttempts)) := by
  have h0 : backoffPattern 0 = [] := by simp [backoffPattern]
  refine ⟨?_, ?_, ?_, ?_, ?_⟩
  · unfold syncVectorWithRetry
    exact retryGo_attempts_le env oracles now maxAttempts qa.id maxAttempts 0
      qa st [] (by omega) (by omega)
  · unfold syncVectorWithRetry
    rw [← h0]
    exact retryGo_delays_spec env oracles now maxAttempts qa.id maxAttempts 0
      qa st (by omega)
  · intro k efn hconf hfail hsucc hk hkm hp
    unfold syncVectorWithRetry
    exact retryGo_first_success env oracles now maxAttempts qa.id k efn hconf
      hfail hsucc maxAttempts 0 qa st [] (by omega) (by omega) hkm hp
  · intro e hconf h1 hm hnone
    unfold syncVectorWithRetry retryGo
    rw [dif_pos (by omega : 0 < maxAttempts)]
    simp only [h1, syncVector_embed_error env e (oracles 1).upsertOutcome now
      qa st hconf]
    rw [if_pos (by omega : 0 + 1 < maxAttempts)]
    have hget : getById (setFailed st.table qa.id now) qa.id = none := by
      have := getById_setFailed st.table qa.id now qa.id
      rw [hnone] at this
      cases hx : getById (setFailed st.table qa.id now) qa.id with
      | none => exact rfl
      | some v =>
          rw [hx] at this
          simp at this
    simp only [hget]
  · intro efn hconf hfail hm hp
    unfold syncVectorWithRetry
    exact retryGo_all_fail env oracles now maxAttempts qa.id efn hconf hfail
      maxAttempts 0 qa st [] (by omega) (by omega) hp


/-- Witness for C6: first attempt throws, second succeeds, on a
three-attempt budget; the loop stops at attempt 2 with no error. -/
theorem syncVectorWithRetry_spec_witness :
    (syncVectorWithRetry ⟨true, some "m", none, none, none, none⟩
        (fun n => if n = 1 then ⟨Except.error "e1", Except.ok ()⟩
                  else ⟨Except.ok ⟨[(1 : ℚ)], "m"⟩, Except.ok ()⟩) "t1" 3
        ⟨"a1", "Q", "A", "ru", none, "pending", "t0", "t0"⟩
        ⟨[⟨"a1", "Q", "A", "ru", none, "pending", "t0", "t0"⟩], []⟩).attempts
      = 2 ∧
    (syncVectorWithRetry ⟨true, some "m", none, none, none, none⟩
        (fun n => if n = 1 then ⟨Except.error "e1", Except.ok ()⟩
                  else ⟨Except.ok ⟨[(1 : ℚ)], "m"⟩, Except.ok ()⟩) "t1" 3
        ⟨"a1", "Q", "A", "ru", none, "pending", "t0", "t0"⟩
        ⟨[⟨"a1", "Q", "A", "ru", none, "pending", "t0", "t0"⟩], []⟩).error
      = none := by
  have h := (syncVectorWithRetry_spec ⟨true, some "m", none, none, none, none⟩
      (fun n => if n = 1 then ⟨Except.error "e1", Except.ok ()⟩
                else ⟨Except.ok ⟨[(1 : ℚ)], "m"⟩, Except.ok ()⟩) "t1" 3
      ⟨"a1", "Q", "A", "ru", none, "pending", "t0", "t0"⟩
      ⟨[⟨"a1", "Q", "A", "ru", none, "pending", "t0", "t0"⟩], []⟩).2.2.1
    2 (fun _ => "e1") (by decide)
    (by
      intro n h1 h2
      have hn : n = 1 := by omega
      subst hn
      rfl)
    (by
      intro qa' st'
      simp [syncVector, embed, embeddingConfigured, upsertVector])
    (by decide) (by decide) (by decide)
  exact h


/-- The response mapping never returns more than `topK` entries. -/
theorem mapResults_length_le (candidates : List RerankCandidate) (topK : Nat)
    (data : List RerankItem) :
    (mapResults candidates topK data).length ≤ topK := by
  unfold mapResults
  exact List.length_take_le topK _


/-- Every mapped result is one of the input candidates, with a score
taken (sanitised) from some response entry. -/
theorem mapResults_mem (candidates : List RerankCandidate) (topK : Nat)
    (data : List RerankItem) (r : RerankResult)
    (hr : r ∈ mapResults candidates topK data) :
    r.id ∈ candidates.map (fun c => c.id) ∧
    ∃ item ∈ data, r.score = jsFiniteScore item.score := by
  unfold mapResults at hr
  have hr' := List.mem_of_mem_take hr
  rcases List.mem_filterMap.mp hr' with ⟨item, hitem, hmap⟩
  simp only [] at hmap
  cases hidx : item.index with
  | none => simp [hidx] at hmap
  | some i =>
      simp only [hidx] at hmap
      by_cases hrange : 0 ≤ i ∧ i < (candidates.length : Int)
      · rw [if_pos hrange] at hmap
        rcases Option.map_eq_some'.mp hmap with ⟨c, hc, hcr⟩
        have hcmem : c ∈ candidates := List.get?_mem hc
        constructor
        · rw [← hcr]
          exact List.mem_map_of_mem (fun c => c.id) hcmem
        · exact ⟨item, hitem, by rw [← hcr]⟩
      · rw [if_neg hrange] at hmap
        simp at hmap


/-- The model loop returns either no results or exactly the mapped
results of some model whose call succeeded. -/
theorem rerankGo_results_cases (provider : String → Except String ProviderResponse)
    (candidates : List RerankCandidate) (topK : Nat) :
    ∀ models attempted errors,
      (rerankGo provider candidates topK models attempted errors).results = [] ∨
      ∃ resp m, provider m = Except.ok resp ∧
        (rerankGo provider candidates topK models attempted errors).results =
          mapResults candidates topK resp.data := by
  intro models
  induction models with
  | nil =>
      intro a e
      left
      rfl
  | cons m rest ih =>
      intro a e
      unfold rerankGo
      cases hp : provider m with
      | ok resp =>
          by_cases hres : mapResults candidates topK resp.data = []
          · simp only [hres, if_pos]
            exact ih _ _
          · right
            exact ⟨resp, m, hp, by simp [hres]⟩
      | error e2 =>
          exact ih _ _


/-- C10. Provider-response hardening in `rerankService.rerank`: the
result list of a response is truncated to at most `topK` entries; every
entry's id is the id of an input candidate (out-of-range provider indices
are dropped rather than dereferenced); and the sanitiser maps every
non-finite or missing provider score to `0`, so all result scores are
(finite) rationals.  The same bound and membership hold for the full
`rerank` execution. -/
theorem rerank_results_wellformed (env : Env) (inferenceAvailable : Bool)
    (provider : String → Except String ProviderResponse)
    (candidates : List RerankCandidate) (topK : Nat) :
    (∀ data, (mapResults candidates topK data).length ≤ topK ∧
      ∀ r ∈ mapResults candidates topK data,
        r.id ∈ candidates.map (fun c => c.id) ∧
        ∃ item ∈ data, r.score = jsFiniteScore item.score) ∧
    (jsFiniteScore (some JNum.nan) = 0 ∧ jsFiniteScore (some JNum.posInf) = 0 ∧
      jsFiniteScore (some JNum.negInf) = 0 ∧ jsFiniteScore none = 0) ∧
    (rerankExec env inferenceAvailable provider candidates topK).results.length
      ≤ topK ∧
    (∀ r ∈ (rerankExec env inferenceAvailable provider candidates topK).results,
      r.id ∈ candidates.map (fun c => c.id)) := by
  have hexec :
      (rerankExec env inferenceAvailable provider candidates topK).results = [] ∨
      ∃ resp m, provider m = Except.ok resp ∧
        (rerankExec env inferenceAvailable provider candidates topK).results =
          mapResults candidates topK resp.data := by
    unfold rerankExec
    by_cases h1 : rerankConfigured env = false
    · rw [if_pos h1]
      left
      rfl
    · rw [if_neg h1]
      by_cases h2 : inferenceAvailable = false
      · rw [if_pos h2]
        left
        rfl
      · rw [if_neg h2]
        exact rerankGo_results_cases provider candidates topK _ _ _
  refine ⟨?_, ⟨rfl, rfl, rfl, rfl⟩, ?_, ?_⟩
  · intro data
    exact ⟨mapResults_length_le candidates topK data,
      fun r hr => mapResults_mem candidates topK data r hr⟩
  · rcases hexec with h | ⟨resp, m, _, h⟩
    · rw [h]
      exact Nat.zero_le topK
    · rw [h]
      exact mapResults_length_le candidates topK resp.data
  · intro r hr
    rcases hexec with h | ⟨resp, m, _, h⟩
    · rw [h] at hr
      cases hr
    · rw [h] at hr
      exact (mapResults_mem candidates topK resp.data r hr).1


/-- Witness for C10: two candidates, a response with one valid entry, one
out-of-range index and one NaN score. -/
theorem rerank_results_wellformed_witness :
    (mapResults [⟨"c1", "t1"⟩, ⟨"c2", "t2"⟩] 5
        [⟨some 1, some (JNum.fin 2)⟩, ⟨some 9, some (JNum.fin 1)⟩,
         ⟨some 0, some JNum.nan⟩]).length ≤ 5 ∧
    (⟨"c2", 2⟩ : RerankResult).id ∈
      ([⟨"c1", "t1"⟩, ⟨"c2", "t2"⟩] : List RerankCandidate).map
        (fun c => c.id) := by
  have h := rerank_results_wellformed ⟨true, none, none, some "m1", none, none⟩
    true (fun _ => Except.ok ⟨[]⟩) [⟨"c1", "t1"⟩, ⟨"c2", "t2"⟩] 5
  refine ⟨(h.1 [⟨some 1, some (JNum.fin 2)⟩, ⟨some 9, some (JNum.fin 1)⟩,
    ⟨some 0, some JNum.nan⟩]).1, ?_⟩
  exact ((h.1 [⟨some 1, some (JNum.fin 2)⟩, ⟨some 9, some (JNum.fin 1)⟩,
    ⟨some 0, some JNum.nan⟩]).2 ⟨"c2", 2⟩ (by decide)).1


/-- A JS map built from keyed entries with distinct keys looks up each
element to its own value. -/
theorem jsMapGet_map_self {A B : Type} (l : List A) (key : A → String)
    (val : A → B) (hnd : (l.map key).Nodup) (c : A) (hc : c ∈ l) :
    jsMapGet (l.map fun a => (key a, val a)) (key c) = some (val c) := by
  unfold jsMapGet
  rw [← List.map_reverse]
  have hnd' : ((l.reverse.map fun a => (key a, val a)).map Prod.fst).Nodup := by
    rw [List.map_map]
    have : (Prod.fst ∘ fun a => (key a, val a)) = key := by
      funext a
      rfl
    rw [this]
    rw [List.map_reverse]
    exact List.nodup_reverse.mpr hnd
  have hmem : (key c, val c) ∈ l.reverse.map fun a => (key a, val a) := by
    exact List.mem_map_of_mem _ (List.mem_reverse.mpr hc)
  have hfind := find?_key_eq Prod.fst (key c)
    (l.reverse.map fun a => (key a, val a)) (key c, val c) hnd' hmem rfl
  rw [hfind]
  rfl


/-- C2. The confidence gate of the newest search route: when the rerank
call returns a non-empty ordering whose top score is below `0.01`, the
response has empty `matches`, `rerankerRejected = true`, the raw
vector-ordered candidates exposed separately as `vectorMatches`, and the
trace records the rejection reason and the top score. -/
theorem search_confidence_gate (env : Env) (o : RerankExecution)
    (candidates : List Candidate) (topK : Nat)
    (hcfg : rerankConfigured env = true)
    (hcand : ¬(candidates = []))
    (hres : ¬(o.results = []))
    (hlow : (((o.results).head?).map (fun r => r.score)).getD 0 < 1 / 100) :
    (searchAssembleV2 env (Except.ok o) candidates topK).«matches» = [] ∧
    (searchAssembleV2 env (Except.ok o) candidates topK).rerankerRejected
      = true ∧
    (searchAssembleV2 env (Except.ok o) candidates topK).vectorMatches =
      some ((candidates.map toVectorRow).take topK) ∧
    (searchAssembleV2 env (Except.ok o) candidates topK).topRerankScore =
      some ((((o.results).head?).map (fun r => r.score)).getD 0) ∧
    (searchAssembleV2 env (Except.ok o) candidates topK).rerank.fallbackReason =
      some (FallbackReason.lowScore
        ((((o.results).head?).map (fun r => r.score)).getD 0)) ∧
    (searchAssembleV2 env (Except.ok o) candidates topK).rerank.applied
      = false := by
  unfold searchAssembleV2
  simp only [if_pos (And.intro hcfg hcand), if_pos hres, if_pos hlow]
  exact ⟨by trivial, by trivial, by trivial, by trivial, by trivial, by trivial⟩


/-- Witness for C2: a top rerank score of `1/200 = 0.005` rejects the
query and surfaces the vector-ordered candidate separately. -/
theorem search_confidence_gate_witness :
    (searchAssembleV2 ⟨true, none, none, some "m1", none, none⟩
        (Except.ok ⟨some "m1", [⟨"c1", 1 / 200⟩], ["m1"], none⟩)
        [⟨"c1", 1, "t", true, ⟨"c1", "Q", "A", "ru"⟩⟩] 5).«matches» = [] ∧
    (searchAssembleV2 ⟨true, none, none, some "m1", none, none⟩
        (Except.ok ⟨some "m1", [⟨"c1", 1 / 200⟩], ["m1"], none⟩)
        [⟨"c1", 1, "t", true, ⟨"c1", "Q", "A", "ru"⟩⟩] 5).rerankerRejected
      = true ∧
    (searchAssembleV2 ⟨true, none, none, some "m1", none, none⟩
        (Except.ok ⟨some "m1", [⟨"c1", 1 / 200⟩], ["m1"], none⟩)
        [⟨"c1", 1, "t", true, ⟨"c1", "Q", "A", "ru"⟩⟩] 5).vectorMatches =
      some [⟨"c1", 1, 1, none, "Q", "A", "ru"⟩] := by
  have h := search_confidence_gate ⟨true, none, none, some "m1", none, none⟩
    ⟨some "m1", [⟨"c1", 1 / 200⟩], ["m1"], none⟩
    [⟨"c1", 1, "t", true, ⟨"c1", "Q", "A", "ru"⟩⟩] 5
    (by decide) (by decide) (by decide)
    (by
      show (((([⟨"c1", 1 / 200⟩] : List RerankResult)).head?).map
        (fun r => r.score)).getD 0 < 1 / 100
      norm_num)
  refine ⟨h.1, h.2.1, ?_⟩
  rw [h.2.2.1]
  rfl


/-- C4. Candidate reconciliation: question/answer come from the vector
entry's own metadata when both are present (non-blank), otherwise from
the canonical record found by the same id — in particular a hit with no
metadata but a matching canonical record yields a usable candidate built
from the canonical text; a hit with neither source is dropped (`none`,
never an error); the canonical lookup is the `findByIds`-backed map; and
any reconciled candidate appears in the candidate list. -/
theorem candidate_reconciliation (tbl : List QAPair)
    (hits : List VectorMatch) (lookup : String → Option QAPair) :
    (∀ (m : VectorMatch) (i q a : String),
      m.id = some i → ¬(i = "") →
      m.metadata.question = some q → m.metadata.answer = some a →
      ¬(q = "") → ¬(a = "") →
      buildCandidate lookup m =
        some { id := i, baseScore := (m.score).getD 0,
               text := q ++ "\n\n" ++ a, hasMetadata := true,
               qa := { id := i, question := q, answer := a,
                       language := (m.metadata.language).getD
                         (((lookup i).map (fun r => r.language)).getD "ru") } }) ∧
    (∀ (m : VectorMatch) (i : String) (r : QAPair),
      m.id = some i → ¬(i = "") →
      m.metadata.question = none → m.metadata.answer = none →
      lookup i = some r → ¬(r.question = "") → ¬(r.answer = "") →
      buildCandidate lookup m =
        some { id := i, baseScore := (m.score).getD 0,
               text := r.question ++ "\n\n" ++ r.answer, hasMetadata := false,
               qa := { id := i, question := r.question, answer := r.answer,
                       language := (m.metadata.language).getD r.language } }) ∧
    (∀ (m : VectorMatch) (i : String),
      m.id = some i →
      (m.metadata.question = none ∨ m.metadata.answer = none) →
      lookup i = none →
      buildCandidate lookup m = none) ∧
    (∀ (ids : List String) (i : String) (r : QAPair),
      (tbl.map (fun s => s.id)).Nodup → r ∈ tbl → r.id = i → i ∈ ids →
      qaLookup tbl ids i = some r) ∧
    (∀ (m : VectorMatch) (c : Candidate),
      m ∈ hits →
      buildCandidate (qaLookup tbl (matchIds hits)) m = some c →
      c ∈ buildCandidates tbl hits) := by
  refine ⟨?_, ?_, ?_, ?_, ?_⟩
  · intro m i q a hid hine hq ha hqne hane
    unfold buildCandidate
    simp only [hid, hq, ha]
    rw [if_neg hine]
    have hmeta : (some q).isSome && (some a).isSome = true := rfl
    rw [if_neg (by simp : ¬(((some q).isSome && (some a).isSome) = false ∧
      lookup i = none))]
    rw [if_neg (by
      intro hor
      rcases hor with h | h
      · exact hqne h
      · exact hane h)]
    cases hlang : m.metadata.language <;> rfl
  · intro m i r hid hine hq ha hl hqne hane
    unfold buildCandidate
    simp only [hid, hq, ha, hl, Option.map_some']
    rw [if_neg hine]
    rw [if_neg (by simp : ¬(((none : Option String).isSome &&
      (none : Option String).isSome) = false ∧ (some r : Option QAPair) = none))]
    rw [if_neg (by
      intro hor
      rcases hor with h | h
      · exact hqne h
      · exact hane h)]
    cases hlang : m.metadata.language <;> rfl
  · intro m i hid hmeta hl
    unfold buildCandidate
    simp only [hid, hl]
    by_cases hine : i = ""
    · rw [if_pos hine]
    · rw [if_neg hine]
      rw [if_pos (show ((m.metadata.question).isSome &&
          (m.metadata.answer).isSome) = false ∧ True
        from ⟨by rcases hmeta with h | h <;> simp [h], trivial⟩)]
  · intro ids i r hnd hr hri his
    unfold qaLookup
    have hids : ¬(ids = []) := by
      intro h
      rw [h] at his
      cases his
    rw [if_neg hids]
    unfold findByIds
    rw [if_neg hids]
    have hsub : ((tbl.filter (fun s => decide (s.id ∈ ids))).map
        (fun s => s.id)).Nodup :=
      ((List.filter_sublist tbl).map (fun s => s.id)).nodup hnd
    have hmem : r ∈ tbl.filter (fun s => decide (s.id ∈ ids)) := by
      rw [List.mem_filter]
      exact ⟨hr, by simp [hri, his]⟩
    have := jsMapGet_map_self (tbl.filter (fun s => decide (s.id ∈ ids)))
      (fun s => s.id) (fun s => s) hsub r hmem
    simp only [hri] at this
    exact this
  · intro m c hm hbc
    unfold buildCandidates
    exact List.mem_filterMap.mpr ⟨m, hm, hbc⟩


/-- Witness for C4: a metadata-less hit backed by a canonical record
yields a candidate with the canonical text; an orphan hit is dropped. -/
theorem candidate_reconciliation_witness :
    (⟨"v1", 1, "CanQ\n\nCanA", false, ⟨"v1", "CanQ", "CanA", "en"⟩⟩ :
        Candidate) ∈
      buildCandidates [⟨"v1", "CanQ", "CanA", "en", none, "ready", "t", "t"⟩]
        [⟨some "v1", some 1, ⟨none, none, none⟩⟩] ∧
    buildCandidate (fun _ => none) ⟨some "x", none, ⟨none, none, none⟩⟩ =
      none := by
  have h := candidate_reconciliation
    [⟨"v1", "CanQ", "CanA", "en", none, "ready", "t", "t"⟩]
    [⟨some "v1", some 1, ⟨none, none, none⟩⟩]
    (qaLookup [⟨"v1", "CanQ", "CanA", "en", none, "ready", "t", "t"⟩]
      (matchIds [⟨some "v1", some 1, ⟨none, none, none⟩⟩]))
  have hd := h.2.2.2.1 ["v1"] "v1"
    ⟨"v1", "CanQ", "CanA", "en", none, "ready", "t", "t"⟩
    (by decide) (by decide) (by decide) (by decide)
  have hb := h.2.1 ⟨some "v1", some 1, ⟨none, none, none⟩⟩ "v1"
    ⟨"v1", "CanQ", "CanA", "en", none, "ready", "t", "t"⟩
    rfl (by decide) rfl rfl hd (by decide) (by decide)
  constructor
  · exact h.2.2.2.2 ⟨some "v1", some 1, ⟨none, none, none⟩⟩ _
      (by decide) hb
  · exact (candidate_reconciliation [] [] (fun _ => none)).2.2.1
      ⟨some "x", none, ⟨none, none, none⟩⟩ "x" rfl (Or.inl rfl) rfl


/-- C3 counterexample: on the newest search route, a search where every
rerank model throws does not fall back to vector order — the rerank
execution has no results, and the response's `matches` list is empty
(not the vector-ordered candidate) with no `vectorMatches` exposed. -/
theorem rerank_fallback_counterexample :
    (rerankExec ⟨true, none, none, some "m1", some "m2", none⟩ true
        (fun _ => Except.error "boom") [⟨"c1", "t1"⟩] 5).results = [] ∧
    (searchAssembleV2 ⟨true, none, none, some "m1", some "m2", none⟩
        (Except.ok (rerankExec ⟨true, none, none, some "m1", some "m2", none⟩
          true (fun _ => Except.error "boom") [⟨"c1", "t1"⟩] 5))
        [⟨"c1", 1, "t", true, ⟨"c1", "Q", "A", "ru"⟩⟩] 5).«matches» = [] ∧
    ¬((searchAssembleV2 ⟨true, none, none, some "m1", some "m2", none⟩
        (Except.ok (rerankExec ⟨true, none, none, some "m1", some "m2", none⟩
          true (fun _ => Except.error "boom") [⟨"c1", "t1"⟩] 5))
        [⟨"c1", 1, "t", true, ⟨"c1", "Q", "A", "ru"⟩⟩] 5).«matches» =
      [toVectorRow ⟨"c1", 1, "t", true, ⟨"c1", "Q", "A", "ru"⟩⟩]) ∧
    (searchAssembleV2 ⟨true, none, none, some "m1", some "m2", none⟩
        (Except.ok (rerankExec ⟨true, none, none, some "m1", some "m2", none⟩
          true (fun _ => Except.error "boom") [⟨"c1", "t1"⟩] 5))
        [⟨"c1", 1, "t", true, ⟨"c1", "Q", "A", "ru"⟩⟩] 5).vectorMatches =
      none := by
  decide


/-- C3 amended. The rerank fallback chain: with two configured models
where the first call throws and the second succeeds with results, the
execution reports the second model as applied and lists both attempted
models in order; when every model throws, the execution reports no model,
no results and the aggregated per-model failure reasons.  The newest
search route then completes the request normally (no failure), recording
the aggregated reason (or the thrown message) in the trace with
`applied = false` — but its `matches` list is empty rather than
vector-ordered, and the vector-ordered candidates are not exposed
(`vectorMatches` appears only on a confidence-gate rejection). -/
theorem rerank_fallback_chain_amended (env : Env)
    (provider : String → Except String ProviderResponse)
    (candidates : List RerankCandidate) (topK : Nat)
    (routeCandidates : List Candidate) :
    (∀ (m1 m2 e : String) (resp : ProviderResponse),
      rerankConfigured env = true →
      getCandidateModels env = [m1, m2] →
      provider m1 = Except.error e →
      provider m2 = Except.ok resp →
      ¬(mapResults candidates topK resp.data = []) →
      (rerankExec env true provider candidates topK).model = some m2 ∧
      (rerankExec env true provider candidates topK).attemptedModels =
        [m1, m2] ∧
      (rerankExec env true provider candidates topK).results =
        mapResults candidates topK resp.data ∧
      (rerankExec env true provider candidates topK).warning =
        some (joinErrors [m1 ++ ": " ++ e])) ∧
    (∀ (m1 m2 e1 e2 : String),
      rerankConfigured env = true →
      getCandidateModels env = [m1, m2] →
      provider m1 = Except.error e1 →
      provider m2 = Except.error e2 →
      rerankExec env true provider candidates topK =
        { model := none, attemptedModels := [m1, m2], results := [],
          warning := some (joinErrors [m1 ++ ": " ++ e1, m2 ++ ": " ++ e2]) }) ∧
    (∀ (o : RerankExecution),
      rerankConfigured env = true →
      ¬(routeCandidates = []) →
      o.results = [] →
      (searchAssembleV2 env (Except.ok o) routeCandidates topK).rerank.applied
        = false ∧
      (searchAssembleV2 env (Except.ok o) routeCandidates
          topK).rerank.fallbackReason
        = some ((o.warning).elim FallbackReason.noResults
            FallbackReason.warningMsg) ∧
      (searchAssembleV2 env (Except.ok o) routeCandidates
          topK).rerank.attemptedModels = o.attemptedModels ∧
      (searchAssembleV2 env (Except.ok o) routeCandidates topK).«matches»
        = [] ∧
      (searchAssembleV2 env (Except.ok o) routeCandidates topK).vectorMatches
        = none ∧
      (searchAssembleV2 env (Except.ok o) routeCandidates topK).rerankerRejected
        = false) ∧
    (∀ (e : String),
      rerankConfigured env = true →
      ¬(routeCandidates = []) →
      (searchAssembleV2 env (Except.error e) routeCandidates topK).rerank.applied
        = false ∧
      (searchAssembleV2 env (Except.error e) routeCandidates
          topK).rerank.fallbackReason = some (FallbackReason.rerankThrew e) ∧
      (searchAssembleV2 env (Except.error e) routeCandidates topK).«matches»
        = [] ∧
      (searchAssembleV2 env (Except.error e) routeCandidates topK).vectorMatches
        = none) := by
  refine ⟨?_, ?_, ?_, ?_⟩
  · intro m1 m2 e resp hcfg hmods h1 h2 hres
    have hcfg' : ¬(rerankConfigured env = false) := by simp [hcfg]
    unfold rerankExec
    rw [if_neg hcfg', if_neg (by simp : ¬(true = false)), hmods]
    unfold rerankGo
    simp only [h1]
    unfold rerankGo
    simp only [h2, hres, if_neg]
    exact ⟨rfl, rfl, rfl, rfl⟩
  · intro m1 m2 e1 e2 hcfg hmods h1 h2
    have hcfg' : ¬(rerankConfigured env = false) := by simp [hcfg]
    unfold rerankExec
    rw [if_neg hcfg', if_neg (by simp : ¬(true = false)), hmods]
    unfold rerankGo
    simp only [h1]
    unfold rerankGo
    simp only [h2]
    unfold rerankGo
    rfl
  · intro o hcfg hcand hores
    obtain ⟨om, ores, oa, ow⟩ := o
    simp only [] at hores
    subst hores
    unfold searchAssembleV2
    simp only [if_pos (And.intro hcfg hcand)]
    refine ⟨by trivial, by trivial, by trivial, by simp, by trivial, by trivial⟩
  · intro e hcfg hcand
    unfold searchAssembleV2
    simp only [if_pos (And.intro hcfg hcand)]
    refine ⟨by trivial, by trivial, by simp, by trivial⟩


/-- Witness for C3's amended claim: both models throw on a one-candidate
search; the execution aggregates both reasons and the route returns an
empty `matches` list without `vectorMatches`. -/
theorem rerank_fallback_chain_amended_witness :
    (rerankExec ⟨true, none, none, some "m1", some "m2", none⟩ true
        (fun m => if m = "m1" then Except.error "boom1"
                  else Except.error "boom2") [⟨"c1", "t1"⟩] 5).model = none ∧
    (rerankExec ⟨true, none, none, some "m1", some "m2", none⟩ true
        (fun m => if m = "m1" then Except.error "boom1"
                  else Except.error "boom2")
        [⟨"c1", "t1"⟩] 5).attemptedModels = ["m1", "m2"] ∧
    (rerankExec ⟨true, none, none, some "m1", some "m2", none⟩ true
        (fun m => if m = "m1" then Except.error "boom1"
                  else Except.error "boom2") [⟨"c1", "t1"⟩] 5).results = [] ∧
    (searchAssembleV2 ⟨true, none, none, some "m1", some "m2", none⟩
        (Except.ok ⟨none, [], ["m1", "m2"], some "agg"⟩)
        [⟨"c1", 1, "t", true, ⟨"c1", "Q", "A", "ru"⟩⟩] 5).«matches» = [] ∧
    (searchAssembleV2 ⟨true, none, none, some "m1", some "m2", none⟩
        (Except.ok ⟨none, [], ["m1", "m2"], some "agg"⟩)
        [⟨"c1", 1, "t", true, ⟨"c1", "Q", "A", "ru"⟩⟩] 5).vectorMatches =
      none := by
  have h := rerank_fallback_chain_amended
    ⟨true, none, none, some "m1", some "m2", none⟩
    (fun m => if m = "m1" then Except.error "boom1"
              else Except.error "boom2")
    [⟨"c1", "t1"⟩] 5
    [⟨"c1", 1, "t", true, ⟨"c1", "Q", "A", "ru"⟩⟩]
  have h2 := h.2.1 "m1" "m2" "boom1" "boom2" (by decide) (by decide) rfl rfl
  have h3 := h.2.2.1 ⟨none, [], ["m1", "m2"], some "agg"⟩
    (by decide) (by decide) rfl
  exact ⟨by rw [h2], by rw [h2], by rw [h2], h3.2.2.2.1, h3.2.2.2.2.1⟩


end AssistQna
